import Mathlib

/-!
Shallow embedding of the source-view selection core of
easyvolcap/dataloaders/datasets/image_based_dataset.py (with the bound
intersection step shared with noop_dataset.py), and proofs of the spec
properties about it.

Modelling conventions:
* Camera centers are rational triples (every IEEE float is a rational, and the
  claims only involve comparisons and ring operations on the coordinates).
* The source computes similarities as 1 / (centers_source - centers_target)
  .norm(dim=-1) and sorts them descending (load_source_indices, lines 112-121).
  Since x maps to 1 / Real.sqrt x is strictly antitone on positives, and a zero
  distance produces the float infinity (the largest similarity) in the source,
  ranking candidates by descending similarity is exactly ranking them by
  ascending squared distance, which keeps all values in ℚ and exactly
  computable.  The bridge to the real-valued similarity is stated explicitly in
  the theorems where the spec speaks of similarities.
* torch.Tensor.sort's tie behaviour is modelled as the stable order (equal keys
  ordered by ascending candidate index), which is the behaviour the dataset
  documents for its CPU tensors.
* Randomness (random.random(), random.sample, random.choices) is modelled by
  passing the drawn values explicitly: a rational r in [0, 1) for
  random.random(), a list of chosen positions for random.sample, a chosen
  position for random.choices.  Theorems quantify over all draws.
-/

namespace ImageBasedDataset

/-- A 3D point (a camera center, the translation part of a camera-to-world
transform). -/
abbrev Pt := ℚ × ℚ × ℚ

/-- Squared Euclidean distance between two camera centers. -/
def sqDist (a b : Pt) : ℚ :=
  (a.1 - b.1) * (a.1 - b.1) + (a.2.1 - b.2.1) * (a.2.1 - b.2.1) +
    (a.2.2 - b.2.2) * (a.2.2 - b.2.2)

/-- The order used to model `sims.sort(dim=1, descending=True)` on candidate
indices: `k` is the squared distance to the target (so smaller key first means
larger similarity first), equal keys are ordered by ascending candidate index
(the stable tie order). -/
def rankLE (k : ℕ → ℚ) (i j : ℕ) : Prop :=
  k i < k j ∨ (k i = k j ∧ i ≤ j)

instance (k : ℕ → ℚ) : DecidableRel (rankLE k) := fun i j =>
  decidable_of_iff (k i < k j ∨ (k i = k j ∧ i ≤ j)) Iff.rfl

instance (k : ℕ → ℚ) : IsTotal ℕ (rankLE k) where
  total i j := by
    rcases lt_trichotomy (k i) (k j) with h | h | h
    · exact Or.inl (Or.inl h)
    · rcases Nat.le_total i j with hij | hij
      · exact Or.inl (Or.inr ⟨h, hij⟩)
      · exact Or.inr (Or.inr ⟨h.symm, hij⟩)
    · exact Or.inr (Or.inl h)

instance (k : ℕ → ℚ) : IsTrans ℕ (rankLE k) where
  trans a b c hab hbc := by
    rcases hab with hab | ⟨hab, hab2⟩ <;> rcases hbc with hbc | ⟨hbc, hbc2⟩
    · exact Or.inl (hab.trans hbc)
    · exact Or.inl (lt_of_lt_of_eq hab hbc)
    · exact Or.inl (lt_of_eq_of_lt hab hbc)
    · exact Or.inr ⟨hab.trans hbc, Nat.le_trans hab2 hbc2⟩

/-- The similarity key of candidate `i` of `centers` against `target`:
its squared distance to the target (see the header comment for why this is the
faithful, exactly-computable stand-in for the similarity `1 / distance`). -/
def simKey (centers : List Pt) (target : Pt) (i : ℕ) : ℚ :=
  sqDist (centers.getD i ((0 : ℚ), (0 : ℚ), (0 : ℚ))) target

/-- `ImageBasedDataset.load_source_indices` (lines 111-121), one row of the
precomputed `src_inds` tensor: the permutation of the candidate indices sorted
by descending similarity to the target center (equivalently by ascending
squared distance), ties by ascending index.  `centers` are the candidate camera
centers at the relevant secondary-axis index, `target` the target center. -/
def load_source_indices (centers : List Pt) (target : Pt) : List ℕ :=
  (List.range centers.length).insertionSort (rankLE (simKey centers target))

/-- The ranking is a permutation of the candidate index range. -/
theorem load_source_indices_perm (centers : List Pt) (target : Pt) :
    List.Perm (load_source_indices centers target) (List.range centers.length) :=
  List.perm_insertionSort _ _

theorem load_source_indices_nodup (centers : List Pt) (target : Pt) :
    (load_source_indices centers target).Nodup :=
  (load_source_indices_perm centers target).nodup_iff.mpr (List.nodup_range _)

theorem load_source_indices_sorted (centers : List Pt) (target : Pt) :
    (load_source_indices centers target).Sorted (rankLE (simKey centers target)) :=
  List.sorted_insertionSort _ _

theorem load_source_indices_mem (centers : List Pt) (target : Pt) (x : ℕ) :
    x ∈ load_source_indices centers target ↔ x < centers.length := by
  rw [(load_source_indices_perm centers target).mem_iff, List.mem_range]

/-- Adjacent entries of a `rankLE`-sorted duplicate-free list: keys are
non-decreasing, and on a key tie the candidate indices strictly increase. -/
theorem sorted_adjacent {k : ℕ → ℚ} {l : List ℕ}
    (hs : l.Sorted (rankLE k)) (hnd : l.Nodup) {i : ℕ} (h : i + 1 < l.length) :
    k (l.getD i 0) ≤ k (l.getD (i + 1) 0) ∧
      (k (l.getD i 0) = k (l.getD (i + 1) 0) → l.getD i 0 < l.getD (i + 1) 0) := by
  have hi : i < l.length := Nat.lt_of_succ_lt h
  rw [List.getD_eq_getElem l 0 hi, List.getD_eq_getElem l 0 h]
  have hrel : rankLE k l[i] l[i + 1] := by
    have := hs.rel_get_of_lt (a := ⟨i, hi⟩) (b := ⟨i + 1, h⟩)
      (by simp [Fin.lt_def])
    simpa [List.get_eq_getElem] using this
  have hne : l[i] ≠ l[i + 1] := by
    intro he
    have : i = i + 1 := (hnd.getElem_inj_iff).mp he
    omega
  rcases hrel with hlt | ⟨heq, hle⟩
  · exact ⟨le_of_lt hlt, fun he => absurd he (ne_of_lt hlt)⟩
  · exact ⟨le_of_eq heq, fun _ => lt_of_le_of_ne hle hne⟩

/-- On positive keys, similarity `1 / sqrt key` is antitone: larger squared
distance means smaller similarity. -/
theorem one_div_sqrt_antitone {a b : ℚ} (ha : 0 < a) (hab : a ≤ b) :
    (1 : ℝ) / Real.sqrt (b : ℚ) ≤ 1 / Real.sqrt (a : ℚ) := by
  have ha2 : (0 : ℝ) < (a : ℚ) := by exact_mod_cast ha
  have hab2 : ((a : ℚ) : ℝ) ≤ ((b : ℚ) : ℝ) := by exact_mod_cast hab
  exact one_div_le_one_div_of_le (Real.sqrt_pos.mpr ha2) (Real.sqrt_le_sqrt hab2)

/-- The 5-camera scenario of the spec: candidate centers on the x-axis. -/
def exCenters : List Pt :=
  [(0, 0, 0), (1, 0, 0), (2, 0, 0), (5, 0, 0), (10, 0, 0)]

/-- The scenario target center `(0.5, 0, 0)`. -/
def exTarget : Pt := (1 / 2, 0, 0)

/-- C5: for every target and candidate set, the precomputed similarity ranking
is sorted by descending similarity: adjacent squared distances are
non-decreasing, hence the real similarities `1 / Real.sqrt` of positive keys
are non-increasing; equal similarities are ordered by ascending candidate index
(stable tie order); and on the 5-camera scenario (candidate centers
(0,0,0),(1,0,0),(2,0,0),(5,0,0),(10,0,0), target (0.5,0,0)) the ranking order
is [0,1,2,3,4]. -/
theorem ranking_sorted_descending :
    (∀ (centers : List Pt) (target : Pt) (i : ℕ),
        i + 1 < (load_source_indices centers target).length →
        simKey centers target ((load_source_indices centers target).getD i 0) ≤
            simKey centers target ((load_source_indices centers target).getD (i + 1) 0) ∧
          (simKey centers target ((load_source_indices centers target).getD i 0) =
              simKey centers target ((load_source_indices centers target).getD (i + 1) 0) →
            (load_source_indices centers target).getD i 0 <
              (load_source_indices centers target).getD (i + 1) 0) ∧
          (0 < simKey centers target ((load_source_indices centers target).getD i 0) →
            (1 : ℝ) / Real.sqrt
                (simKey centers target ((load_source_indices centers target).getD (i + 1) 0) : ℚ) ≤
              1 / Real.sqrt
                (simKey centers target ((load_source_indices centers target).getD i 0) : ℚ))) ∧
    load_source_indices exCenters exTarget = [0, 1, 2, 3, 4] := by
  constructor
  · intro centers target i h
    obtain ⟨hle, htie⟩ := sorted_adjacent (load_source_indices_sorted centers target)
      (load_source_indices_nodup centers target) h
    exact ⟨hle, htie, fun hpos => one_div_sqrt_antitone hpos hle⟩
  · with_unfolding_all decide

/-- Witness for C5: the sortedness instantiated at the scenario, adjacent
positions 0 and 1 (the tied pair), with the length hypothesis discharged
concretely. -/
theorem ranking_sorted_descending_witness :
    simKey exCenters exTarget ((load_source_indices exCenters exTarget).getD 0 0) ≤
        simKey exCenters exTarget ((load_source_indices exCenters exTarget).getD (0 + 1) 0) ∧
      (simKey exCenters exTarget ((load_source_indices exCenters exTarget).getD 0 0) =
          simKey exCenters exTarget ((load_source_indices exCenters exTarget).getD (0 + 1) 0) →
        (load_source_indices exCenters exTarget).getD 0 0 <
          (load_source_indices exCenters exTarget).getD (0 + 1) 0) ∧
      (0 < simKey exCenters exTarget ((load_source_indices exCenters exTarget).getD 0 0) →
        (1 : ℝ) / Real.sqrt
            (simKey exCenters exTarget ((load_source_indices exCenters exTarget).getD (0 + 1) 0) : ℚ) ≤
          1 / Real.sqrt
            (simKey exCenters exTarget ((load_source_indices exCenters exTarget).getD 0 0) : ℚ)) :=
  ranking_sorted_descending.1 exCenters exTarget 0 (by with_unfolding_all decide)

/-! ## The training-time stochastic selector (get_metadata, lines 169-221) -/

/-- The ground-truth-removal coin of `get_metadata` line 190:
`remove_gt = 1 if random.random() > self.append_gt_prob else 0`.
`r` is the value drawn by `random.random()`, a float in `[0, 1)`. -/
def remove_gt (append_gt_prob r : ℚ) : ℕ :=
  if append_gt_prob < r then 1 else 0

/-- Model of `random.sample(lst, n)` (`get_metadata` line 193): `picks` are the
positions drawn by the sampler (the theorems quantify over all draws with
pairwise-distinct in-range positions); the call raises `ValueError` when
`n > len(lst)`, modelled as `none`. -/
def randomSample (lst : List ℕ) (n : ℕ) (picks : List ℕ) : Option (List ℕ) :=
  if n ≤ lst.length then some (picks.map fun q => lst.getD q 0) else none

/-- `get_metadata` lines 190-193: take the ranking-row slice
`src_inds[target_index, remove_gt : remove_gt + n_srcs + random_ap, extra_index]`
(Python slicing clamps at the end of the row, which `drop`/`take` model
exactly), then, when `random_ap > 0`, draw `n_srcs` of those uniformly without
replacement. -/
def select_sources (row : List ℕ) (n_srcs ap rg : ℕ) (picks : List ℕ) :
    Option (List ℕ) :=
  let pool := (row.drop rg).take (n_srcs + ap)
  if ap ≠ 0 then randomSample pool n_srcs picks else some pool

/-- A two-candidate pool used by the counterexamples. -/
def cexCenters : List Pt := [(0, 0, 0), (1, 0, 0)]

/-- C1 (counterexample): with `extra_src_pool = 0`, `requested_count = 2` and
`num_candidates = 2`, the claim's guard `requested_count + extra_src_pool ≤
num_candidates` holds, yet a draw with `random.random() > append_gt_prob`
(remove_gt = 1) makes the slice `[1 : 1 + 2]` of a 2-element ranking return a
single index, not `requested_count` many. -/
theorem select_sources_count_cex :
    remove_gt (1 / 10) (1 / 2) = 1 ∧
    2 + 0 ≤ cexCenters.length ∧
    select_sources (load_source_indices cexCenters ((0 : ℚ), (0 : ℚ), (0 : ℚ))) 2 0
        (remove_gt (1 / 10) (1 / 2)) [] = some [1] ∧
    ¬ (([1] : List ℕ).length = 2) := by
  refine ⟨?_, ?_, ?_, ?_⟩ <;> with_unfolding_all decide

/-- C1 (amended): for every query and every randomness draw, the selector
returns exactly `n_srcs` pairwise-distinct indices, all in
`[0, num_candidates)` and all taken from the precomputed ranking row, provided
`n_srcs + extra_src_pool` plus the per-call `remove_gt` coin (0 or 1) does not
exceed the number of candidates. -/
theorem select_sources_count_distinct_inrange
    (centers : List Pt) (target : Pt) (n_srcs ap : ℕ) (p r : ℚ) (picks : List ℕ)
    (hbudget : n_srcs + ap + remove_gt p r ≤ centers.length)
    (hlen : picks.length = n_srcs) (hnd : picks.Nodup)
    (hlt : ∀ q ∈ picks, q < min (n_srcs + ap) (centers.length - remove_gt p r)) :
    ∃ res,
      select_sources (load_source_indices centers target) n_srcs ap (remove_gt p r) picks
          = some res ∧
        res.length = n_srcs ∧ res.Nodup ∧ (∀ x ∈ res, x < centers.length) ∧
        ∀ x ∈ res, x ∈ load_source_indices centers target := by
  have hrowlen : (load_source_indices centers target).length = centers.length := by
    simpa using (load_source_indices_perm centers target).length_eq
  have hrownd := load_source_indices_nodup centers target
  set row := load_source_indices centers target with hrow
  set rg := remove_gt p r with hrgdef
  set pool := (row.drop rg).take (n_srcs + ap) with hpool
  have hsub : pool.Sublist row := (List.take_sublist _ _).trans (List.drop_sublist _ _)
  have hpoolnd : pool.Nodup := hsub.nodup hrownd
  have hpoolmem : ∀ x ∈ pool, x ∈ row := fun x hx => hsub.subset hx
  have hpoollen : pool.length = n_srcs + ap := by
    simp only [hpool, List.length_take, List.length_drop, hrowlen]
    omega
  have hrange : ∀ x ∈ row, x < centers.length := fun x hx =>
    (load_source_indices_mem centers target x).mp hx
  by_cases hap : ap = 0
  · subst hap
    refine ⟨pool, ?_, ?_, hpoolnd, fun x hx => hrange x (hpoolmem x hx),
      fun x hx => hpoolmem x hx⟩
    · simp [select_sources, hpool]
    · omega
  · refine ⟨picks.map fun q => pool.getD q 0, ?_, ?_, ?_, ?_, ?_⟩
    · simp only [select_sources, randomSample, hpoollen, ← hpool]
      rw [if_pos (Nat.le_add_right n_srcs ap), if_pos hap]
    · simpa using hlen
    · refine hnd.map_on ?_
      intro q1 hq1 q2 hq2 heq
      have hlt1 : q1 < pool.length := by
        have := hlt q1 hq1
        omega
      have hlt2 : q2 < pool.length := by
        have := hlt q2 hq2
        omega
      rw [List.getD_eq_getElem pool 0 hlt1, List.getD_eq_getElem pool 0 hlt2] at heq
      exact (hpoolnd.getElem_inj_iff).mp heq
    · intro x hx
      obtain ⟨q, hq, hqx⟩ := List.mem_map.mp hx
      have hqlt : q < pool.length := by
        have := hlt q hq
        omega
      rw [List.getD_eq_getElem pool 0 hqlt] at hqx
      exact hqx ▸ hrange _ (hpoolmem _ (List.getElem_mem hqlt))
    · intro x hx
      obtain ⟨q, hq, hqx⟩ := List.mem_map.mp hx
      have hqlt : q < pool.length := by
        have := hlt q hq
        omega
      rw [List.getD_eq_getElem pool 0 hqlt] at hqx
      exact hqx ▸ hpoolmem _ (List.getElem_mem hqlt)

/-- Witness for C1: the amended guarantee instantiated on the 5-camera scenario
with `n_srcs = 2`, `extra_src_pool = 1`, a remove_gt draw of 1 and sample
positions 0 and 2. -/
theorem select_sources_count_distinct_inrange_witness :
    ∃ res,
      select_sources (load_source_indices exCenters exTarget) 2 1
          (remove_gt (1 / 10) (1 / 2)) [0, 2] = some res ∧
        res.length = 2 ∧ res.Nodup ∧ (∀ x ∈ res, x < exCenters.length) ∧
        ∀ x ∈ res, x ∈ load_source_indices exCenters exTarget :=
  select_sources_count_distinct_inrange exCenters exTarget 2 1 (1 / 10) (1 / 2) [0, 2]
    (by with_unfolding_all decide) (by decide) (by decide)
    (by with_unfolding_all decide)

/-- C3 (counterexample): with `append_gt_prob = 0` the selector is not
deterministic: `random.random()` can return exactly 0.0 (a possible value of
the draw, though of probability 2 to the minus 53), and `0 > 0` is false, so
`remove_gt = 0` and the ground truth is kept; any positive draw gives
`remove_gt = 1`.  On the 5-camera scenario the two draws produce [0,1] and
[1,2]. -/
theorem select_sources_gt0_deterministic_cex :
    remove_gt 0 0 = 0 ∧ remove_gt 0 (1 / 2) = 1 ∧
    select_sources (load_source_indices exCenters exTarget) 2 0 (remove_gt 0 0) [] =
      some [0, 1] ∧
    select_sources (load_source_indices exCenters exTarget) 2 0 (remove_gt 0 (1 / 2)) [] =
      some [1, 2] ∧
    ([0, 1] : List ℕ) ≠ [1, 2] := by
  refine ⟨?_, ?_, ?_, ?_, ?_⟩ <;> with_unfolding_all decide

/-- C3 (amended): with `extra_src_pool = 0` and `append_gt_prob = 0`, for every
random draw `r` with `0 < r` (i.e. except the probability-2⁻⁵³ draw `r = 0`)
the selector is independent of the randomness and returns exactly the top
`n_srcs` ranked candidates after skipping the single top-ranked entry,
preserving rank order. -/
theorem select_sources_gt0_deterministic
    (centers : List Pt) (target : Pt) (n_srcs : ℕ) (r : ℚ) (hr : 0 < r)
    (picks : List ℕ) :
    select_sources (load_source_indices centers target) n_srcs 0 (remove_gt 0 r) picks =
      some (((load_source_indices centers target).drop 1).take n_srcs) := by
  simp [select_sources, remove_gt, hr]

/-- Witness for C3: on the 5-camera scenario ranking with `requested_count = 2`
and the draw `r = 1/2`, the result is indices 1 then 2, as the spec scenario
states. -/
theorem select_sources_gt0_deterministic_witness :
    select_sources (load_source_indices exCenters exTarget) 2 0 (remove_gt 0 (1 / 2)) [] =
      some [1, 2] :=
  (select_sources_gt0_deterministic exCenters exTarget 2 (1 / 2)
      (by with_unfolding_all decide) []).trans (by with_unfolding_all decide)

/-! ## Constructor-time validation (ImageBasedDataset.__init__, lines 35-85) -/

/-- The default `[0, None, 1]` sampling slice the constructor assertions
compare against. -/
def defaultSample : List (Option ℤ) := [some 0, none, some 1]

/-- The configuration fields read by `__init__`: the sampling configuration
stored without validation (lines 73-76) and the fields read by the four
`assert` statements (lines 58, 59, 60, 81). -/
structure Config where
  n_srcs_list : List ℕ
  n_srcs_prob : List ℚ
  append_gt_prob : ℚ
  extra_src_pool : ℕ
  closest_using_t : Bool
  frame_sample : List (Option ℤ)
  view_sample : List (Option ℤ)
  force_sparse_view : Bool
  cache_raw : Bool
  supply_decoded : Bool
  use_object_prior : Bool
  has_objects_bounds : Bool
  use_smpls : Bool
  use_vhulls : Bool

/-- The conjunction of the `assert`s executed by `ImageBasedDataset.__init__`
(lines 58-60 and 81): construction succeeds iff this is `true`.  These are the
only construction-time checks in the source. -/
def initAsserts (c : Config) : Bool :=
  (!c.closest_using_t || c.frame_sample == defaultSample || c.force_sparse_view) &&
    (c.view_sample == defaultSample || c.force_sparse_view) &&
    !(c.cache_raw && !c.supply_decoded) &&
    !(c.use_object_prior && !c.has_objects_bounds && !c.use_smpls && !c.use_vhulls)

/-- A configuration requesting `n_srcs = 4` sources plus an extra pool of 1
from a candidate pool that will only have 2 cameras. -/
def cexConfig : Config :=
  ⟨[4], [1], 1 / 10, 1, false, defaultSample, defaultSample, false, false, false,
    false, false, false, false⟩

/-- C4 (counterexample): a candidate pool (2 cameras) smaller than the
requested sample size (4 + 1 extra) passes every constructor assertion —
construction succeeds — and the failure first surfaces at query time, where
`random.sample` raises (`none`). -/
theorem pool_size_init_cex :
    initAsserts cexConfig = true ∧
    cexConfig.n_srcs_list = [4] ∧ cexConfig.extra_src_pool = 1 ∧
    cexCenters.length = 2 ∧
    select_sources (load_source_indices cexCenters ((0 : ℚ), (0 : ℚ), (0 : ℚ))) 4 1 1 [] =
      none := by
  refine ⟨?_, ?_, ?_, ?_, ?_⟩ <;> with_unfolding_all decide

/-- C4 (amended): the constructor performs no validation of the sampling
budget — its assertions read none of `n_srcs_list`, `n_srcs_prob`,
`append_gt_prob`, `extra_src_pool` — so an oversized request is not detected at
construction and first surfaces at query time: with `extra_src_pool = 0` as a
silently short result, with `extra_src_pool > 0` as a sampling error (`none`,
the `ValueError` of `random.sample`). -/
theorem pool_size_not_checked_at_init
    (l₁ l₂ : List ℕ) (pr₁ pr₂ : List ℚ) (p₁ p₂ : ℚ) (e₁ e₂ : ℕ)
    (ct fsv cr sd uop hob us uv : Bool) (fs vs : List (Option ℤ))
    (row : List ℕ) (n_srcs ap rg : ℕ) (picks : List ℕ)
    (hrg : rg ≤ row.length) (hsmall : row.length < n_srcs + rg) :
    initAsserts ⟨l₁, pr₁, p₁, e₁, ct, fs, vs, fsv, cr, sd, uop, hob, us, uv⟩ =
      initAsserts ⟨l₂, pr₂, p₂, e₂, ct, fs, vs, fsv, cr, sd, uop, hob, us, uv⟩ ∧
    (ap = 0 → select_sources row n_srcs ap rg picks = some (row.drop rg) ∧
      (row.drop rg).length < n_srcs) ∧
    (ap ≠ 0 → select_sources row n_srcs ap rg picks = none) := by
  refine ⟨rfl, ?_, ?_⟩
  · intro hap
    subst hap
    have hdlen : (row.drop rg).length = row.length - rg := List.length_drop rg row
    constructor
    · simp only [select_sources, if_neg (by omega : ¬(0 : ℕ) ≠ 0)]
      rw [List.take_of_length_le (by omega)]
    · omega
  · intro hap
    have hpoollen : ((row.drop rg).take (n_srcs + ap)).length < n_srcs := by
      simp only [List.length_take, List.length_drop]
      omega
    simp only [select_sources, if_pos hap, randomSample, if_neg (Nat.not_le.mpr hpoollen)]

/-- Witness for C4: the amended statement instantiated at the concrete
oversized configurations and the 2-element ranking row [0, 1]. -/
theorem pool_size_not_checked_at_init_witness :
    initAsserts ⟨[4], [1], 1 / 10, 1, false, defaultSample, defaultSample, false, false,
        false, false, false, false, false⟩ =
      initAsserts ⟨[2, 3, 4], [1, 2, 1], 1 / 2, 0, false, defaultSample, defaultSample,
        false, false, false, false, false, false, false⟩ ∧
    ((1 : ℕ) = 0 → select_sources [0, 1] 4 1 1 [] = some (([0, 1] : List ℕ).drop 1) ∧
      (([0, 1] : List ℕ).drop 1).length < 4) ∧
    ((1 : ℕ) ≠ 0 → select_sources [0, 1] 4 1 1 [] = none) :=
  pool_size_not_checked_at_init [4] [2, 3, 4] [1] [1, 2, 1] (1 / 10) (1 / 2) 1 0
    false false false false false false false false defaultSample defaultSample
    [0, 1] 4 1 1 [] (by decide) (by decide)

/-! ## The viewer/inference selector (get_viewer_batch, lines 238-320) -/

/-- The clamp `1e-10` applied to distances in `get_viewer_batch` line 275
(`.clip(1e-10)` clamps the distance from below before inversion). -/
def clipEps : ℚ := 1 / 10000000000

/-- The clamped similarity key of the viewer path, on the squared-distance
scale: clamping the distance at `clipEps` and then squaring is the same as
clamping the squared distance at `clipEps * clipEps` (both sides of the max are
nonnegative), so descending clamped similarity is ascending `viewerKey`. -/
def viewerKey (centers : List Pt) (target : Pt) (i : ℕ) : ℚ :=
  max (clipEps * clipEps) (simKey centers target i)

/-- `sims.sort(dim=-1, descending=True)` of `get_viewer_batch` line 276:
the candidate indices sorted by descending clamped similarity to the query
camera center. -/
def viewer_rank (centers : List Pt) (target : Pt) : List ℕ :=
  (List.range centers.length).insertionSort (rankLE (viewerKey centers target))

/-- Lines 278-279: `n_srcs = self.n_srcs_list[-1]` and the top slice
`src_inds[:n_srcs]`. -/
def get_viewer_src_inds (n_srcs_list : List ℕ) (centers : List Pt) (target : Pt) :
    List ℕ :=
  (viewer_rank centers target).take (n_srcs_list.getLastD 0)

theorem viewer_rank_perm (centers : List Pt) (target : Pt) :
    List.Perm (viewer_rank centers target) (List.range centers.length) :=
  List.perm_insertionSort _ _

theorem viewer_rank_nodup (centers : List Pt) (target : Pt) :
    (viewer_rank centers target).Nodup :=
  (viewer_rank_perm centers target).nodup_iff.mpr (List.nodup_range _)

theorem viewer_rank_sorted (centers : List Pt) (target : Pt) :
    (viewer_rank centers target).Sorted (rankLE (viewerKey centers target)) :=
  List.sorted_insertionSort _ _

theorem viewer_rank_mem (centers : List Pt) (target : Pt) (x : ℕ) :
    x ∈ viewer_rank centers target ↔ x < centers.length := by
  rw [(viewer_rank_perm centers target).mem_iff, List.mem_range]

/-- The head of the viewer ranking minimizes the clamped key over all
candidates: no candidate (in particular not a hypothetical ground-truth one) is
skipped before the top of the list. -/
theorem viewer_rank_head_min (centers : List Pt) (target : Pt) (j : ℕ)
    (hj : j < centers.length) :
    viewerKey centers target ((viewer_rank centers target).getD 0 0) ≤
      viewerKey centers target j := by
  have hmem : j ∈ viewer_rank centers target := (viewer_rank_mem centers target j).mpr hj
  have hs := viewer_rank_sorted centers target
  cases hr : viewer_rank centers target with
  | nil => rw [hr] at hmem; exact absurd hmem (List.not_mem_nil j)
  | cons a tl =>
    rw [hr] at hmem hs
    rcases List.mem_cons.mp hmem with h | h
    · subst h; simp [hr]
    · have hrel := List.rel_of_sorted_cons hs j h
      rcases hrel with hlt | ⟨heq, _⟩
      · simpa [hr] using le_of_lt hlt
      · simpa [hr] using le_of_eq heq

/-- Candidate centers used by the C2 counterexample. -/
def viewerCexCenters : List Pt := [(1, 0, 0), (2, 0, 0), (3, 0, 0), (4, 0, 0)]

/-- C2 (counterexample): the viewer selector takes the top
`n_srcs_list[-1]` candidates, not the top `max(n_srcs_list)`: with
`n_srcs_list = [3, 2]` and 4 candidates it returns 2 indices while
`max(n_srcs_list) = 3`. -/
theorem viewer_select_topk_cex :
    (get_viewer_src_inds [3, 2] viewerCexCenters ((0 : ℚ), (0 : ℚ), (0 : ℚ))).length = 2 ∧
    ([3, 2] : List ℕ).foldr max 0 = 3 ∧ ¬ ((2 : ℕ) = 3) := by
  refine ⟨?_, ?_, ?_⟩ <;> with_unfolding_all decide

/-- C2 (amended): for every viewer query, the selector deterministically takes
the top `n_srcs_list[-1]` candidates of the ranking by descending clamped
inverse-distance similarity (equal to `max(n_srcs_list)` for the default
ascending configuration): the result has `min(n_srcs_list[-1], num_candidates)`
pairwise-distinct in-range indices, adjacent entries have non-increasing
similarity (non-decreasing clamped keys), the top-ranked candidate over the
whole pool is included first (no ground-truth-removal step), and two calls with
identical camera pose and time return identical source indices. -/
theorem viewer_select_topk_spec (n_srcs_list : List ℕ) (centers : List Pt)
    (target : Pt) :
    (get_viewer_src_inds n_srcs_list centers target).length =
      min (n_srcs_list.getLastD 0) centers.length ∧
    (get_viewer_src_inds n_srcs_list centers target).Nodup ∧
    (∀ x ∈ get_viewer_src_inds n_srcs_list centers target, x < centers.length) ∧
    (∀ i, i + 1 < (get_viewer_src_inds n_srcs_list centers target).length →
      viewerKey centers target
          ((get_viewer_src_inds n_srcs_list centers target).getD i 0) ≤
        viewerKey centers target
          ((get_viewer_src_inds n_srcs_list centers target).getD (i + 1) 0)) ∧
    (0 < (get_viewer_src_inds n_srcs_list centers target).length →
      ∀ j < centers.length,
        viewerKey centers target
            ((get_viewer_src_inds n_srcs_list centers target).getD 0 0) ≤
          viewerKey centers target j) ∧
    (∀ centers2 target2, centers = centers2 → target = target2 →
      get_viewer_src_inds n_srcs_list centers target =
        get_viewer_src_inds n_srcs_list centers2 target2) := by
  have hranklen : (viewer_rank centers target).length = centers.length := by
    simpa using (viewer_rank_perm centers target).length_eq
  have hsub : (get_viewer_src_inds n_srcs_list centers target).Sublist
      (viewer_rank centers target) := List.take_sublist _ _
  have hnd : (get_viewer_src_inds n_srcs_list centers target).Nodup :=
    hsub.nodup (viewer_rank_nodup centers target)
  have hsorted : (get_viewer_src_inds n_srcs_list centers target).Sorted
      (rankLE (viewerKey centers target)) :=
    (viewer_rank_sorted centers target).sublist hsub
  refine ⟨?_, hnd, ?_, ?_, ?_, ?_⟩
  · simp [get_viewer_src_inds, List.length_take, hranklen]
  · intro x hx
    exact (viewer_rank_mem centers target x).mp (hsub.subset hx)
  · intro i h
    exact (sorted_adjacent hsorted hnd h).1
  · intro hpos j hj
    have hget : (get_viewer_src_inds n_srcs_list centers target).getD 0 0 =
        (viewer_rank centers target).getD 0 0 := by
      have h0 : 0 < (viewer_rank centers target).length := by
        have := hpos
        simp only [get_viewer_src_inds, List.length_take, lt_min_iff] at this
        omega
      rw [List.getD_eq_getElem _ 0 hpos, List.getD_eq_getElem _ 0 h0]
      simp [get_viewer_src_inds]
    rw [hget]
    exact viewer_rank_head_min centers target j hj
  · intro centers2 target2 hc ht
    rw [hc, ht]

/-- Witness for C2: the amended statement instantiated with the default
`n_srcs_list = [2, 3, 4]` on the 4-camera pool, extracting the adjacency
property at position 0 and the result length. -/
theorem viewer_select_topk_spec_witness :
    viewerKey viewerCexCenters ((0 : ℚ), (0 : ℚ), (0 : ℚ))
        ((get_viewer_src_inds [2, 3, 4] viewerCexCenters
          ((0 : ℚ), (0 : ℚ), (0 : ℚ))).getD 0 0) ≤
      viewerKey viewerCexCenters ((0 : ℚ), (0 : ℚ), (0 : ℚ))
        ((get_viewer_src_inds [2, 3, 4] viewerCexCenters
          ((0 : ℚ), (0 : ℚ), (0 : ℚ))).getD (0 + 1) 0) ∧
    (get_viewer_src_inds [2, 3, 4] viewerCexCenters
        ((0 : ℚ), (0 : ℚ), (0 : ℚ))).length =
      min (([2, 3, 4] : List ℕ).getLastD 0) viewerCexCenters.length :=
  ⟨(viewer_select_topk_spec [2, 3, 4] viewerCexCenters
      ((0 : ℚ), (0 : ℚ), (0 : ℚ))).2.2.2.1 0 (by with_unfolding_all decide),
    (viewer_select_topk_spec [2, 3, 4] viewerCexCenters
      ((0 : ℚ), (0 : ℚ), (0 : ℚ))).1⟩

theorem sqDist_nonneg (a b : Pt) : 0 ≤ sqDist a b := by
  unfold sqDist
  have h1 := mul_self_nonneg (a.1 - b.1)
  have h2 := mul_self_nonneg (a.2.1 - b.2.1)
  have h3 := mul_self_nonneg (a.2.2 - b.2.2)
  linarith

theorem clipEps_pos : 0 < clipEps := by norm_num [clipEps]

/-- C7: in the viewer selector the distance to every candidate is clamped to
the positive epsilon 1e-10 before inversion: the clamped key is positive (never
a division by zero), the resulting similarity is positive and bounded by the
inverse of the squared epsilon (finite) for every input pose including a query
center exactly coinciding with a candidate center, and clamping the distance at
`clipEps` then squaring agrees with the squared-scale key used by the
embedding. -/
theorem viewer_sim_clamped_finite (centers : List Pt) (target : Pt) (i : ℕ) :
    0 < viewerKey centers target i ∧
    0 < 1 / viewerKey centers target i ∧
    1 / viewerKey centers target i ≤ 1 / (clipEps * clipEps) ∧
    (max (clipEps : ℝ) (Real.sqrt (simKey centers target i : ℚ))) ^ 2 =
      ((viewerKey centers target i : ℚ) : ℝ) := by
  have hs : (0 : ℚ) ≤ simKey centers target i := sqDist_nonneg _ _
  have hs2 : (0 : ℝ) ≤ ((simKey centers target i : ℚ) : ℝ) := by exact_mod_cast hs
  have heps : (0 : ℚ) < clipEps * clipEps := mul_pos clipEps_pos clipEps_pos
  have hmax : clipEps * clipEps ≤ viewerKey centers target i := le_max_left _ _
  have hkey : (0 : ℚ) < viewerKey centers target i := lt_of_lt_of_le heps hmax
  refine ⟨hkey, one_div_pos.mpr hkey, one_div_le_one_div_of_le heps hmax, ?_⟩
  have hepsR : (0 : ℝ) ≤ (clipEps : ℚ) := by exact_mod_cast clipEps_pos.le
  rcases le_total (Real.sqrt ((simKey centers target i : ℚ) : ℝ)) ((clipEps : ℚ) : ℝ) with
    hle | hle
  · rw [max_eq_left hle]
    have hsle : ((simKey centers target i : ℚ) : ℝ) ≤ ((clipEps : ℚ) : ℝ) ^ 2 := by
      calc ((simKey centers target i : ℚ) : ℝ)
          = Real.sqrt ((simKey centers target i : ℚ) : ℝ) ^ 2 := (Real.sq_sqrt hs2).symm
        _ ≤ ((clipEps : ℚ) : ℝ) ^ 2 := by
            exact pow_le_pow_left₀ (Real.sqrt_nonneg _) hle 2
    have hq : simKey centers target i ≤ clipEps * clipEps := by
      have : ((simKey centers target i : ℚ) : ℝ) ≤ ((clipEps * clipEps : ℚ) : ℝ) := by
        push_cast
        nlinarith [hsle]
      exact_mod_cast this
    rw [show viewerKey centers target i = clipEps * clipEps from max_eq_left hq]
    push_cast
    ring
  · rw [max_eq_right hle, Real.sq_sqrt hs2]
    have hq : clipEps * clipEps ≤ simKey centers target i := by
      have h1 : ((clipEps : ℚ) : ℝ) ^ 2 ≤ ((simKey centers target i : ℚ) : ℝ) := by
        calc ((clipEps : ℚ) : ℝ) ^ 2
            ≤ Real.sqrt ((simKey centers target i : ℚ) : ℝ) ^ 2 := by
              exact pow_le_pow_left₀ hepsR hle 2
          _ = ((simKey centers target i : ℚ) : ℝ) := Real.sq_sqrt hs2
      have : ((clipEps * clipEps : ℚ) : ℝ) ≤ ((simKey centers target i : ℚ) : ℝ) := by
        push_cast
        nlinarith [h1]
      exact_mod_cast this
    rw [show viewerKey centers target i = simKey centers target i from max_eq_right hq]

/-! ## Bound intersection of the viewer path -/

/-- The bound intersection written at the end of `get_viewer_batch`
(image_based_dataset.py lines 308-311, and identically noop_dataset.py lines
90-93).  A bound box is a 2×3 tensor, row 0 the lower corner and row 1 the
upper corner; the code clones the per-latent dataset bounds `db`, overwrites
row 0 with `torch.maximum(bounds[0], qb[0])` and then row 1 with
`torch.minimum(bounds[1], qb[1])` against the per-call bounds `qb`. -/
def viewer_bounds (db qb : Fin 2 → Fin 3 → ℚ) : Fin 2 → Fin 3 → ℚ :=
  let b0 := Function.update db 0 (fun j => max (db 0 j) (qb 0 j))
  Function.update b0 1 (fun j => min (b0 1 j) (qb 1 j))

/-- C8: after source selection in the viewer path the output bound box is the
elementwise intersection of the dataset per-latent bound box and the per-call
bound box: lower corner the elementwise max of the lower corners, upper corner
the elementwise min of the upper corners; equivalently, a point lies in the
output box iff it lies in both input boxes. -/
theorem viewer_bounds_intersection (db qb : Fin 2 → Fin 3 → ℚ) :
    (∀ j, viewer_bounds db qb 0 j = max (db 0 j) (qb 0 j)) ∧
    (∀ j, viewer_bounds db qb 1 j = min (db 1 j) (qb 1 j)) ∧
    (∀ x : Fin 3 → ℚ,
      (∀ j, viewer_bounds db qb 0 j ≤ x j ∧ x j ≤ viewer_bounds db qb 1 j) ↔
        ((∀ j, db 0 j ≤ x j ∧ x j ≤ db 1 j) ∧
          (∀ j, qb 0 j ≤ x j ∧ x j ≤ qb 1 j))) := by
  have h0 : ∀ j, viewer_bounds db qb 0 j = max (db 0 j) (qb 0 j) := by
    intro j
    simp [viewer_bounds, Function.update_same,
      Function.update_noteq (show (0 : Fin 2) ≠ 1 by decide)]
  have h1 : ∀ j, viewer_bounds db qb 1 j = min (db 1 j) (qb 1 j) := by
    intro j
    simp [viewer_bounds, Function.update_same,
      Function.update_noteq (show (1 : Fin 2) ≠ 0 by decide)]
  refine ⟨h0, h1, ?_⟩
  intro x
  constructor
  · intro h
    constructor <;> intro j <;> obtain ⟨hl, hu⟩ := h j <;>
      rw [h0 j] at hl <;> rw [h1 j] at hu
    · exact ⟨le_trans (le_max_left _ _) hl, le_trans hu (min_le_left _ _)⟩
    · exact ⟨le_trans (le_max_right _ _) hl, le_trans hu (min_le_right _ _)⟩
  · rintro ⟨hd, hq⟩ j
    rw [h0 j, h1 j]
    exact ⟨max_le (hd j).1 (hq j).1, le_min (hd j).2 (hq j).2⟩

/-! ## Resolution of the n_srcs_list configuration (line 73) -/

/-- Line 73 of `__init__`:
`self.n_srcs_list = n_srcs_list if len(n_srcs_list) != 1 or n_srcs_list[0] != 0
else [self.n_views]`. -/
def resolve_n_srcs_list (l : List ℕ) (n_views : ℕ) : List ℕ :=
  if l.length ≠ 1 ∨ l.headD 0 ≠ 0 then l else [n_views]

/-- Model of `random.choices(population, weights)[0]` (`get_metadata` line
171): returns the population element at the position drawn by the sampler. -/
def random_choices (pop : List ℕ) (pick : ℕ) : ℕ :=
  pop.getD (pick % pop.length) 0

/-- C10: the constructor replaces `n_srcs_list = [0]` by `[n_views]` (so every
subsequent draw requests `n_views` sources) and stores any other value,
including other single-element lists, unchanged. -/
theorem resolve_n_srcs_list_spec (l : List ℕ) (n_views : ℕ) (h : l ≠ [0]) :
    resolve_n_srcs_list [0] n_views = [n_views] ∧
    resolve_n_srcs_list l n_views = l ∧
    (∀ pick, random_choices (resolve_n_srcs_list [0] n_views) pick = n_views) := by
  have hzero : resolve_n_srcs_list [0] n_views = [n_views] := rfl
  refine ⟨hzero, ?_, ?_⟩
  · unfold resolve_n_srcs_list
    match l, h with
    | [], _ => simp
    | [a], h =>
      have ha : a ≠ 0 := fun he => h (by rw [he])
      simp [ha]
    | a :: b :: tl, _ => simp
  · intro pick
    rw [hzero]
    simp [random_choices, Nat.mod_one]

/-- Witness for C10: the resolution applied to `[0]` and to the default
`[2, 3, 4]`, and a concrete draw from the resolved singleton. -/
theorem resolve_n_srcs_list_spec_witness :
    resolve_n_srcs_list [0] 5 = [5] ∧
    resolve_n_srcs_list [2, 3, 4] 5 = [2, 3, 4] ∧
    random_choices (resolve_n_srcs_list [0] 5) 7 = 5 :=
  ⟨(resolve_n_srcs_list_spec [2, 3, 4] 5 (by decide)).1,
    (resolve_n_srcs_list_spec [2, 3, 4] 5 (by decide)).2.1,
    (resolve_n_srcs_list_spec [2, 3, 4] 5 (by decide)).2.2 7⟩

/-! ## The object-prior cropper (get_objects_prior, lines 130-167) -/

/-- Python `int()` applied to a float value: truncation toward zero. -/
def pyInt (q : ℚ) : ℤ := if 0 ≤ q then ⌊q⌋ else ⌈q⌉

/-- `np.clip(v, lo, hi)`, which computes `minimum(hi, maximum(v, lo))`. -/
def npClip (v lo hi : ℚ) : ℚ := min hi (max v lo)

/-- Lines 140-141 of `get_objects_prior`: round the box sizes up to the next
multiple of 32 (`np.ceil(w / 32) * 32`), falling back to rounding both down
when either rounded-up size exceeds the image (`if w > W or h > H`). -/
def roundSize (w0 h0 : ℚ) (W H : ℤ) : ℤ × ℤ :=
  if W < ⌈w0 / 32⌉ * 32 ∨ H < ⌈h0 / 32⌉ * 32 then
    (⌊w0 / 32⌋ * 32, ⌊h0 / 32⌋ * 32)
  else (⌈w0 / 32⌉ * 32, ⌈h0 / 32⌉ * 32)

/-- Lines 140-143 of `get_objects_prior`: the rounded box, re-centered by
`x - (w - w_orig) // 2` (float floor division) and clamped into the image by
`np.clip(..., 0, [W - w, H - h])`, finally truncated by `int(...)`.
Returns `(x, y, w, h)`. -/
def objects_xywh (x0 y0 w0 h0 : ℚ) (W H : ℤ) : ℤ × ℤ × ℤ × ℤ :=
  let w := (roundSize w0 h0 W H).1
  let h := (roundSize w0 h0 W H).2
  let x := npClip (x0 - (⌊((w : ℚ) - w0) / 2⌋ : ℤ)) 0 ((W : ℚ) - w)
  let y := npClip (y0 - (⌊((h : ℚ) - h0) / 2⌋ : ℤ)) 0 ((H : ℚ) - h)
  (pyInt x, pyInt y, w, h)

theorem roundSize_spec (w0 h0 : ℚ) (W H : ℤ)
    (hw0 : 0 ≤ w0) (hh0 : 0 ≤ h0) (hwW : w0 ≤ (W : ℚ)) (hhH : h0 ≤ (H : ℚ)) :
    (32 : ℤ) ∣ (roundSize w0 h0 W H).1 ∧ (32 : ℤ) ∣ (roundSize w0 h0 W H).2 ∧
    0 ≤ (roundSize w0 h0 W H).1 ∧ 0 ≤ (roundSize w0 h0 W H).2 ∧
    (roundSize w0 h0 W H).1 ≤ W ∧ (roundSize w0 h0 W H).2 ≤ H := by
  have h32 : (0 : ℚ) < 32 := by norm_num
  have hwf_le : ((⌊w0 / 32⌋ * 32 : ℤ) : ℚ) ≤ w0 := by
    push_cast
    calc (⌊w0 / 32⌋ : ℚ) * 32 ≤ w0 / 32 * 32 := by
          have := Int.floor_le (w0 / 32)
          linarith
      _ = w0 := div_mul_cancel₀ w0 (by norm_num)
  have hhf_le : ((⌊h0 / 32⌋ * 32 : ℤ) : ℚ) ≤ h0 := by
    push_cast
    calc (⌊h0 / 32⌋ : ℚ) * 32 ≤ h0 / 32 * 32 := by
          have := Int.floor_le (h0 / 32)
          linarith
      _ = h0 := div_mul_cancel₀ h0 (by norm_num)
  have hwf_nonneg : (0 : ℤ) ≤ ⌊w0 / 32⌋ * 32 :=
    mul_nonneg (Int.floor_nonneg.mpr (div_nonneg hw0 h32.le)) (by norm_num)
  have hhf_nonneg : (0 : ℤ) ≤ ⌊h0 / 32⌋ * 32 :=
    mul_nonneg (Int.floor_nonneg.mpr (div_nonneg hh0 h32.le)) (by norm_num)
  have hwc_nonneg : (0 : ℤ) ≤ ⌈w0 / 32⌉ * 32 :=
    mul_nonneg (Int.ceil_nonneg (div_nonneg hw0 h32.le)) (by norm_num)
  have hhc_nonneg : (0 : ℤ) ≤ ⌈h0 / 32⌉ * 32 :=
    mul_nonneg (Int.ceil_nonneg (div_nonneg hh0 h32.le)) (by norm_num)
  unfold roundSize
  by_cases hbr : W < ⌈w0 / 32⌉ * 32 ∨ H < ⌈h0 / 32⌉ * 32
  · rw [if_pos hbr]
    refine ⟨dvd_mul_left 32 _, dvd_mul_left 32 _, hwf_nonneg, hhf_nonneg, ?_, ?_⟩
    · exact_mod_cast hwf_le.trans hwW
    · exact_mod_cast hhf_le.trans hhH
  · rw [if_neg hbr]
    push_neg at hbr
    exact ⟨dvd_mul_left 32 _, dvd_mul_left 32 _, hwc_nonneg, hhc_nonneg, hbr.1, hbr.2⟩

/-- The re-center-and-clamp step keeps one axis inside the image: for any
rounded size `w ≤ W`, the clipped then truncated coordinate is nonnegative and
`x + w ≤ W`. -/
theorem clip_axis_bounds (x0 w0 : ℚ) (w W : ℤ) (hwW : w ≤ W) :
    0 ≤ pyInt (npClip (x0 - (⌊((w : ℚ) - w0) / 2⌋ : ℤ)) 0 ((W : ℚ) - w)) ∧
    pyInt (npClip (x0 - (⌊((w : ℚ) - w0) / 2⌋ : ℤ)) 0 ((W : ℚ) - w)) + w ≤ W := by
  set v : ℚ := x0 - (⌊((w : ℚ) - w0) / 2⌋ : ℤ) with hv
  have hWw : (0 : ℚ) ≤ (W : ℚ) - w := by
    have : (w : ℚ) ≤ (W : ℚ) := by exact_mod_cast hwW
    linarith
  have hclip_nonneg : 0 ≤ npClip v 0 ((W : ℚ) - w) :=
    le_min hWw (le_max_right v 0)
  have hclip_le : npClip v 0 ((W : ℚ) - w) ≤ (W : ℚ) - w := min_le_left _ _
  have hpy : pyInt (npClip v 0 ((W : ℚ) - w)) = ⌊npClip v 0 ((W : ℚ) - w)⌋ :=
    if_pos hclip_nonneg
  constructor
  · rw [hpy]
    exact Int.le_floor.mpr (by exact_mod_cast hclip_nonneg)
  · rw [hpy]
    have hfloor : (⌊npClip v 0 ((W : ℚ) - w)⌋ : ℚ) ≤ (W : ℚ) - w :=
      (Int.floor_le _).trans hclip_le
    have : ⌊npClip v 0 ((W : ℚ) - w)⌋ ≤ W - w := by exact_mod_cast hfloor
    omega

/-- C6: for every bound processed by the object-prior cropper whose projected
2D box lies in the `W×H` image (`0 ≤ x0`, `0 ≤ y0`, `0 ≤ w0`, `0 ≤ h0`,
`x0 + w0 ≤ W`, `y0 + h0 ≤ H`), the output box `(x, y, w, h)` has `w` and `h`
multiples of 32 with `w ≤ W` and `h ≤ H`, and `0 ≤ x`, `0 ≤ y`, `x + w ≤ W`,
`y + h ≤ H`: sizes are rounded up to the next multiple of 32, rounded down
instead when rounding up would exceed the image, then the box is re-centered
and clamped inside the image. -/
theorem objects_prior_box_invariants (x0 y0 w0 h0 : ℚ) (W H : ℤ)
    (hx0 : 0 ≤ x0) (hy0 : 0 ≤ y0) (hw0 : 0 ≤ w0) (hh0 : 0 ≤ h0)
    (hxw : x0 + w0 ≤ (W : ℚ)) (hyh : y0 + h0 ≤ (H : ℚ)) :
    (32 : ℤ) ∣ (objects_xywh x0 y0 w0 h0 W H).2.2.1 ∧
    (32 : ℤ) ∣ (objects_xywh x0 y0 w0 h0 W H).2.2.2 ∧
    (objects_xywh x0 y0 w0 h0 W H).2.2.1 ≤ W ∧
    (objects_xywh x0 y0 w0 h0 W H).2.2.2 ≤ H ∧
    0 ≤ (objects_xywh x0 y0 w0 h0 W H).1 ∧
    0 ≤ (objects_xywh x0 y0 w0 h0 W H).2.1 ∧
    (objects_xywh x0 y0 w0 h0 W H).1 + (objects_xywh x0 y0 w0 h0 W H).2.2.1 ≤ W ∧
    (objects_xywh x0 y0 w0 h0 W H).2.1 + (objects_xywh x0 y0 w0 h0 W H).2.2.2 ≤ H := by
  obtain ⟨hdw, hdh, hwpos, hhpos, hwle, hhle⟩ :=
    roundSize_spec w0 h0 W H hw0 hh0 (by linarith) (by linarith)
  obtain ⟨hx_nonneg, hx_le⟩ := clip_axis_bounds x0 w0 (roundSize w0 h0 W H).1 W hwle
  obtain ⟨hy_nonneg, hy_le⟩ := clip_axis_bounds y0 h0 (roundSize w0 h0 W H).2 H hhle
  exact ⟨hdw, hdh, hwle, hhle, hx_nonneg, hy_nonneg, hx_le, hy_le⟩

/-- Witness for C6: the spec scenario — box `(x=100, y=100, w=50, h=40)` in a
640×480 image rounds to `(w=64, h=64)` and re-centers to `x=93, y=88` — plus
the invariants instantiated there. -/
theorem objects_prior_box_invariants_witness :
    objects_xywh 100 100 50 40 640 480 = (93, 88, 64, 64) ∧
    (0 ≤ (objects_xywh 100 100 50 40 640 480).1 ∧
      (objects_xywh 100 100 50 40 640 480).1 +
        (objects_xywh 100 100 50 40 640 480).2.2.1 ≤ 640 ∧
      (32 : ℤ) ∣ (objects_xywh 100 100 50 40 640 480).2.2.1) := by
  have h := objects_prior_box_invariants 100 100 50 40 640 480
    (by norm_num) (by norm_num) (by norm_num) (by norm_num)
    (by norm_num) (by norm_num)
  exact ⟨by with_unfolding_all decide, h.2.2.2.2.1, h.2.2.2.2.2.2.1, h.1⟩

/-! ## The length-1 selection guard of load_source_params (lines 87-109) -/

/-- The `src_view_sample` configuration: either an explicit index list
(`len(src_view_sample) != 3`) or a Python slice `[start:stop:step]` with
`stop = None` meaning the end (the nonnegative slices used by this dataset). -/
inductive SrcViewSample where
  | list : List ℕ → SrcViewSample
  | slice : ℕ → Option ℕ → ℕ → SrcViewSample

/-- Lines 89-92: `view_inds = arange(len(view_inds))` followed by either fancy
indexing with the explicit list or by the slice `[start:stop:step]`. -/
def srcViewInds (n : ℕ) : SrcViewSample → List ℕ
  | SrcViewSample.list l => l
  | SrcViewSample.slice start stop step =>
      let stop2 := min (stop.getD n) n
      (List.range ((stop2 - start + step - 1) / step)).map fun k => start + k * step

/-- Indexing a stacked parameter tensor (`self.Ks` / `self.w2cs`, one row per
candidate view) with a bare index tensor, per the source's own FIXME comment on
line 94: when the index has length 1 the candidate dimension is reduced and the
bare row comes back (`Sum.inr`), otherwise the selected rows (`Sum.inl`). -/
def torchIndex {α : Type} (Ks : List α) (dflt : α) (inds : List ℕ) : List α ⊕ α :=
  if inds.length = 1 then Sum.inr (Ks.getD (inds.headD 0) dflt)
  else Sum.inl (inds.map fun i => Ks.getD i dflt)

/-- `load_source_params` with the guard of line 94
(`if len(view_inds) == 1: view_inds = [view_inds]`): a length-1 selection is
wrapped into a length-1 sequence before indexing, so the candidate axis always
survives. -/
def load_source_params {α : Type} (Ks : List α) (dflt : α) (samp : SrcViewSample) :
    List α ⊕ α :=
  let inds := srcViewInds Ks.length samp
  if inds.length = 1 then Sum.inl [Ks.getD (inds.headD 0) dflt]
  else torchIndex Ks dflt inds

/-- C9: for every parameter tensor and every `src_view_sample`, the guarded
indexing of `load_source_params` keeps the leading candidate dimension: the
result is a row list whose length equals the number of selected candidates; in
particular a selection of exactly one candidate yields a length-1 row list of
the selected row, while the unguarded indexing would collapse the dimension and
return the bare row. -/
theorem load_source_params_keeps_dim {α : Type} (Ks : List α) (dflt : α)
    (samp : SrcViewSample) :
    (∃ rows, load_source_params Ks dflt samp = Sum.inl rows ∧
      rows.length = (srcViewInds Ks.length samp).length) ∧
    ((srcViewInds Ks.length samp).length = 1 →
      load_source_params Ks dflt samp =
        Sum.inl [Ks.getD ((srcViewInds Ks.length samp).headD 0) dflt] ∧
      torchIndex Ks dflt (srcViewInds Ks.length samp) =
        Sum.inr (Ks.getD ((srcViewInds Ks.length samp).headD 0) dflt)) := by
  constructor
  · by_cases h1 : (srcViewInds Ks.length samp).length = 1
    · exact ⟨[Ks.getD ((srcViewInds Ks.length samp).headD 0) dflt],
        by simp [load_source_params, h1], by simp [h1]⟩
    · refine ⟨(srcViewInds Ks.length samp).map fun i => Ks.getD i dflt, ?_, by simp⟩
      simp [load_source_params, torchIndex, h1]
  · intro h1
    exact ⟨by simp [load_source_params, h1], by simp [torchIndex, h1]⟩

/-- Witness for C9: on a 3-view parameter list with the slice `[1:2:1]`
selecting exactly view 1, the guarded load keeps a length-1 candidate axis
while the raw indexing collapses it. -/
theorem load_source_params_keeps_dim_witness :
    load_source_params [10, 20, 30] 0 (SrcViewSample.slice 1 (some 2) 1) =
      Sum.inl [(20 : ℕ)] ∧
    torchIndex [10, 20, 30] 0
        (srcViewInds ([10, 20, 30] : List ℕ).length (SrcViewSample.slice 1 (some 2) 1)) =
      Sum.inr (20 : ℕ) := by
  have h := (load_source_params_keeps_dim [10, 20, 30] 0
    (SrcViewSample.slice 1 (some 2) 1)).2 (by decide)
  exact ⟨h.1.trans (by decide), h.2.trans (by decide)⟩

end ImageBasedDataset
